import Mathlib

/-!
Verification of the two-level list navigator of `codeforces_client.py`
(`Tool._increment_index`, `Tool._compare_indices`, `Tool._handle_move`,
`Tool._handle_resize`, the collapse branch of `Tool.main`) and of the
flat-list viewport scroller `CursesUI.move_viewport` of
`competitive_programming_client.py`, against the repository specification.
-/

namespace CF

/-- One entry of the contest list `self._contests`: its `expanded` flag and
the number of problems it holds (`len(contest)` in the source).  The problem
payloads are never consulted by the index arithmetic, so only the count is
kept. -/
structure Contest where
  expanded : Bool
  size : Nat
deriving DecidableEq

/-- The contest list `self._contests`. -/
abbrev Outline := List Contest

/-- A `(contest_index, problem_index)` pair as held in `self._selected` and
`self._start`.  Python integers are unbounded and signed, so both components
are `Int`; `none` models Python's `None`. -/
abbrev Pos := Int × Option Int

/-- `contests[i]` for a natural index, with a dummy default.  All accesses
performed by the modelled code stay in range (guarded by the source's
assertions and loop bounds), so the default is never reached on the inputs
the theorems quantify over. -/
def cgetN (cs : Outline) (i : Nat) : Contest := cs.getD i ⟨false, 0⟩

/-- `contests[i]` for an integer index; the source only ever indexes with a
nonnegative in-range integer here. -/
def cget (cs : Outline) (i : Int) : Contest := cgetN cs i.toNat

/-- The step argument of `_increment_index`: a Python int `n`, or the two
float sentinels `math.inf` (jump to the end) and `-math.inf` (jump to the
start). -/
inductive Step where
  | fin (n : Int)
  | inf
  | negInf
deriving DecidableEq

/-- The `while n > 0` descent loop of `_increment_index`.  Both iterating
branches of the Python loop execute `contest_index += 1`, so the loop is
phrased as structural recursion on `k`, the number of contests strictly
between `ci` and the last contest; `k = 0` is exactly the source's
`contest_index == len(self._contests) - 1` test (the caller establishes
`0 <= ci <= len - 1` via the assertions, and passes `k = len - 1 - ci`). -/
def goDownAux (cs : Outline) : Nat → Int → Int → Pos
  | 0, ci, n =>
    if 0 < n then
      (ci, if (cget cs ci).expanded
            then some (min (((cget cs ci).size : Int) - 1) (n - 1))
            else none)
    else (ci, none)
  | k + 1, ci, n =>
    if 0 < n then
      if (cget cs ci).expanded then
        if ((cget cs ci).size : Int) < n then
          goDownAux cs k (ci + 1) (n - ((cget cs ci).size : Int) - 1)
        else (ci, some (n - 1))
      else goDownAux cs k (ci + 1) (n - 1)
    else (ci, none)

/-- The `while contest_index != 0 and n > 0` ascent loop of
`_increment_index`, returning the final `(contest_index, n)`.  The loop
decrements `contest_index` once per iteration; since the assertions give
`contest_index >= 0`, the index is carried as a `Nat` and the source's
`contest_index != 0` guard is the successor pattern.  Note the body reads
`contests[contest_index]` *after* the decrement. -/
def goUpAux (cs : Outline) : Nat → Int → Nat × Int
  | 0, n => (0, n)
  | ci + 1, n =>
    if 0 < n then
      goUpAux cs ci
        (n - (if (cgetN cs ci).expanded then ((cgetN cs ci).size : Int) + 1 else 1))
    else (ci + 1, n)

/-- The checked precondition of `_increment_index`, i.e. its two `assert`
statements: `0 <= index[0] < len(self._contests)` and `index[1] is None or
self._contests[index[0]].expanded`.  Note that no bound on the item index is
checked. -/
def checkedPre (cs : Outline) (p : Pos) : Bool :=
  decide (0 ≤ p.1 ∧ p.1 < (cs.length : Int)) &&
  (match p.2 with
   | none => true
   | some _ => (cget cs p.1).expanded)

/-- The body of `_increment_index` after its assertions. -/
def incrementCore (cs : Outline) (index : Pos) (n : Step) : Pos :=
  match n with
  | .inf =>
    -- index of last contest or problem: `self._contests[-1]`
    let lastContest := cs.getLast?.getD ⟨false, 0⟩
    if lastContest.expanded then
      ((cs.length : Int) - 1, some ((lastContest.size : Int) - 1))
    else ((cs.length : Int) - 1, none)
  | .negInf => ((0 : Int), none)
  | .fin m =>
    if 0 < m then
      -- `n += 0 if problem_index is None else problem_index + 1`
      let m1 := m + (match index.2 with | none => 0 | some pi => pi + 1)
      goDownAux cs (cs.length - 1 - index.1.toNat) index.1 m1
    else if m < 0 then
      -- `n = -n; n -= 0 if problem_index is None else problem_index + 1`
      let m0 := (-m) - (match index.2 with | none => 0 | some pi => pi + 1)
      let r := goUpAux cs index.1.toNat m0
      ((r.1 : Int), if r.2 < 0 then some (-r.2 - 1) else none)
    else index

/-- `Tool._increment_index`: the assertions model as an `Except` guard around
the total body. -/
def incrementIndex (cs : Outline) (index : Pos) (n : Step) : Except Unit Pos :=
  if checkedPre cs index then .ok (incrementCore cs index n) else .error ()

/-- `Tool._compare_indices`: "Return -1 if a < b, 0 if a == b, or 1 if
a > b." -/
def compareIndices (a b : Pos) : Int :=
  if a.1 = b.1 then
    if a.2 = b.2 then 0
    else if a.2 = none then -1
    else 1
  else if b.1 < a.1 then 1
  else -1

/-- The navigation state of `Tool`: the contest list, `self._start`,
`self._selected`, `self._relative` and `self._max_y`. -/
structure ToolState where
  contests : Outline
  start : Pos
  selected : Pos
  relative : Int
  maxY : Int
deriving DecidableEq

/-- What a handler repainted: nothing, the two selected rows
(`selection_swap`), or the whole window (`self._redraw()`). -/
inductive Redraw where
  | noop
  | swap
  | full
deriving DecidableEq

/-- `Tool._handle_move`. -/
def handleMove (s : ToolState) (n : Int) : Except Unit (ToolState × Redraw) := do
  let newSelected ← incrementIndex s.contests s.selected (.fin n)
  let newRelative := s.relative + n
  if 0 < n then
    if s.maxY ≤ newRelative then do
      let newStart ← incrementIndex s.contests newSelected (.fin (1 - s.maxY))
      return ({ s with start := newStart, selected := newSelected,
                       relative := s.maxY - 1 }, .full)
    else
      return ({ s with selected := newSelected, relative := newRelative }, .swap)
  else if n < 0 then
    if newRelative < 0 then
      return ({ s with start := newSelected, selected := newSelected,
                       relative := 0 }, .full)
    else
      return ({ s with selected := newSelected, relative := newRelative }, .swap)
  else
    return (s, .noop)

/-- `Tool._handle_resize`: re-pins the window so the selection is its first
row (`self._start = self._selected; self._relative = 0`), with the new
screen height, and fully redraws. -/
def handleResize (s : ToolState) (maxY : Int) : ToolState :=
  { s with maxY := maxY, start := s.selected, relative := 0 }

/-- `contest.expanded = b` for the contest at (integer) index `g`. -/
def setExpanded (cs : Outline) (g : Int) (b : Bool) : Outline :=
  cs.set g.toNat { cgetN cs g.toNat with expanded := b }

/-- The contract branch of `Tool.main` (keys `h` / KEY_LEFT): if the
selection is a problem, first move up to its contest header
(`self._handle_move(-problem_index - 1)`), then clear the contest's
`expanded` flag and redraw; if it is an expanded contest header, just clear
the flag and redraw. -/
def handleCollapse (s : ToolState) : Except Unit ToolState :=
  match s.selected.2 with
  | some pi => do
    let (s1, _) ← handleMove s (-pi - 1)
    return { s1 with contests := setExpanded s1.contests s.selected.1 false }
  | none =>
    if (cget s.contests s.selected.1).expanded then
      return { s with contests := setExpanded s.contests s.selected.1 false }
    else
      return s

/-- The freshly constructed navigator state: `self._start = (0, None)`,
`self._selected = (0, None)`, `self._relative = 0`, with the height the
first `_handle_resize` reads off the screen. -/
def initState (cs : Outline) (maxY : Int) : ToolState :=
  ⟨cs, ((0 : Int), none), ((0 : Int), none), 0, maxY⟩

/-- Full validity of a position under the current expansion state, as the
specification defines it (§3): the group index in range, and an item index
only on an expanded group and within its item count. -/
def validPos (cs : Outline) (p : Pos) : Bool :=
  decide (0 ≤ p.1 ∧ p.1 < (cs.length : Int)) &&
  (match p.2 with
   | none => true
   | some k => (cget cs p.1).expanded && decide (0 ≤ k ∧ k < ((cget cs p.1).size : Int)))

/-- Modelled from the spec (§3): the number of slots one group contributes to
the flattened view — its header, plus its items iff it is expanded. -/
def specSlotCount (c : Contest) : Nat :=
  1 + (if c.expanded then c.size else 0)

/-- Modelled from the spec (§3): total slots contributed by the groups
strictly before group `g`. -/
def specSlotsBefore (cs : Outline) (g : Nat) : Nat :=
  ((cs.take g).map specSlotCount).sum

/-- Modelled from the spec (§3): the slot number of a position in the
flattened, expansion-aware enumeration. -/
def specSlotOf (cs : Outline) (p : Pos) : Int :=
  (specSlotsBefore cs p.1.toNat : Int) +
    (match p.2 with | none => 0 | some k => k + 1)

/-- Modelled from the spec (§3): the lexicographic order on positions with
`None < Some 0 < Some 1 < ...`. -/
def specLexLe (a b : Pos) : Bool :=
  decide (a.1 < b.1) ||
  (decide (a.1 = b.1) &&
    (match a.2, b.2 with
     | none, _ => true
     | some _, none => false
     | some i, some j => decide (i ≤ j)))

/-- Modelled from the spec (§4.1): the last selectable position — if the
last group is expanded and non-empty, its last item; otherwise its header. -/
def specLastPos (cs : Outline) : Pos :=
  let lastC := cs.getLast?.getD ⟨false, 0⟩
  if lastC.expanded && decide (lastC.size ≠ 0) then
    ((cs.length : Int) - 1, some ((lastC.size : Int) - 1))
  else ((cs.length : Int) - 1, none)

end CF

namespace CPC

/-- The state of `CursesUI` in `competitive_programming_client.py` that its
viewport operations read and write: `self._index` (selected row of the flat
selection), `self._viewport_start`, and the selection, abstracted to its
length (the modelled operation reads neither its contents nor the screen
size for state changes). -/
structure UIState where
  index : Int
  viewportStart : Int
  selectionLen : Nat
deriving DecidableEq

/-- `CursesUI.move_viewport`: `self._viewport_start += n` followed by a
repaint of the viewport (`self._refresh_viewport()`); nothing else is
touched. -/
def moveViewport (s : UIState) (n : Int) : UIState :=
  { s with viewportStart := s.viewportStart + n }

end CPC

namespace CF

lemma validPos_none_iff (cs : Outline) (g : Int) :
    validPos cs (g, none) = true ↔ 0 ≤ g ∧ g < (cs.length : Int) := by
  simp [validPos]

lemma validPos_some_iff (cs : Outline) (g k : Int) :
    validPos cs (g, some k) = true ↔
      (0 ≤ g ∧ g < (cs.length : Int)) ∧ (cget cs g).expanded = true ∧
        (0 ≤ k ∧ k < ((cget cs g).size : Int)) := by
  simp [validPos, and_assoc]

lemma validPos_checkedPre {cs : Outline} {p : Pos} (h : validPos cs p = true) :
    checkedPre cs p = true := by
  obtain ⟨g, pi⟩ := p
  cases pi <;> simp [validPos, checkedPre] at h ⊢ <;> tauto

lemma validPos_bounds {cs : Outline} {p : Pos} (h : validPos cs p = true) :
    0 ≤ p.1 ∧ p.1 < (cs.length : Int) := by
  obtain ⟨g, pi⟩ := p
  cases pi with
  | none => exact (validPos_none_iff cs g).1 h
  | some k => exact ((validPos_some_iff cs g k).1 h).1

lemma cget_ofNat (cs : Outline) (k : Nat) : cget cs (k : Int) = cgetN cs k := by
  simp [cget]

lemma getLast_eq_cgetN (cs : Outline) :
    cs.getLast?.getD ⟨false, 0⟩ = cgetN cs (cs.length - 1) := by
  unfold cgetN
  rw [List.getLast?_eq_getElem?, List.getD_eq_getElem?_getD]

lemma goUpAux_nonpos (cs : Outline) (ci : Nat) {n : Int} (h : n ≤ 0) :
    goUpAux cs ci n = (ci, n) := by
  cases ci with
  | zero => rfl
  | succ m => rw [goUpAux, if_neg (by omega)]

lemma goUpAux_fst_le (cs : Outline) : ∀ (ci : Nat) (n : Int), (goUpAux cs ci n).1 ≤ ci := by
  intro ci
  induction ci with
  | zero => intro n; simp [goUpAux]
  | succ m ih =>
    intro n
    rw [goUpAux]
    split
    · exact le_trans (ih _) (Nat.le_succ m)
    · simp

lemma goUpAux_neg (cs : Outline) :
    ∀ (ci : Nat) (n : Int), 0 ≤ n → (goUpAux cs ci n).2 < 0 →
      (cgetN cs (goUpAux cs ci n).1).expanded = true ∧
      0 ≤ -(goUpAux cs ci n).2 - 1 ∧
      -(goUpAux cs ci n).2 - 1 < ((cgetN cs (goUpAux cs ci n).1).size : Int) := by
  intro ci
  induction ci with
  | zero =>
    intro n hn hneg
    rw [goUpAux] at hneg
    exact absurd hneg (by omega)
  | succ m ih =>
    intro n hn hneg
    by_cases hpos : 0 < n
    · rw [goUpAux, if_pos hpos] at hneg ⊢
      by_cases h2 : 0 ≤ n - (if (cgetN cs m).expanded then ((cgetN cs m).size : Int) + 1 else 1)
      · exact ih _ h2 hneg
      · push_neg at h2
        by_cases hexp : (cgetN cs m).expanded = true
        · rw [if_pos hexp] at h2 hneg ⊢
          rw [goUpAux_nonpos cs m (le_of_lt h2)] at hneg ⊢
          dsimp only at hneg ⊢
          exact ⟨hexp, by omega, by omega⟩
        · rw [if_neg hexp] at h2
          omega
    · rw [goUpAux, if_neg hpos] at hneg
      exact absurd hneg (by omega)

lemma goDownAux_valid (cs : Outline)
    (hlast : (cgetN cs (cs.length - 1)).expanded = true →
             (cgetN cs (cs.length - 1)).size ≠ 0) :
    ∀ (k : Nat) (ci n : Int), 0 ≤ ci → ci + (k : Int) = (cs.length : Int) - 1 →
      validPos cs (goDownAux cs k ci n) = true := by
  intro k
  induction k with
  | zero =>
    intro ci n hci hk
    have hcget : cget cs ci = cgetN cs (cs.length - 1) := by
      unfold cget; congr 1; omega
    rw [goDownAux]
    by_cases hn : 0 < n
    · rw [if_pos hn]
      by_cases hexp : (cget cs ci).expanded = true
      · rw [if_pos hexp, validPos_some_iff]
        have hsz : (cget cs ci).size ≠ 0 := by
          rw [hcget]; exact hlast (hcget ▸ hexp)
        refine ⟨⟨hci, by omega⟩, hexp, ?_, ?_⟩
        · exact le_min (by omega) (by omega)
        · exact lt_of_le_of_lt (min_le_left _ _) (by omega)
      · rw [if_neg hexp, validPos_none_iff]
        exact ⟨hci, by omega⟩
    · rw [if_neg hn, validPos_none_iff]
      exact ⟨hci, by omega⟩
  | succ m ih =>
    intro ci n hci hk
    have hk' : ci + ((m : Int) + 1) = (cs.length : Int) - 1 := by push_cast at hk ⊢; omega
    rw [goDownAux]
    by_cases hn : 0 < n
    · rw [if_pos hn]
      by_cases hexp : (cget cs ci).expanded = true
      · rw [if_pos hexp]
        by_cases hlt : ((cget cs ci).size : Int) < n
        · rw [if_pos hlt]
          exact ih (ci + 1) _ (by omega) (by omega)
        · rw [if_neg hlt, validPos_some_iff]
          exact ⟨⟨hci, by omega⟩, hexp, by omega, by omega⟩
      · rw [if_neg hexp]
        exact ih (ci + 1) _ (by omega) (by omega)
    · rw [if_neg hn, validPos_none_iff]
      exact ⟨hci, by omega⟩

lemma incrementCore_valid (cs : Outline) (p : Pos) (n : Step)
    (hlast : (cs.getLast?.getD ⟨false, 0⟩).expanded = true →
             (cs.getLast?.getD ⟨false, 0⟩).size ≠ 0)
    (hp : validPos cs p = true) :
    validPos cs (incrementCore cs p n) = true := by
  obtain ⟨g, pi⟩ := p
  have hg := validPos_bounds hp
  have hlast' : (cgetN cs (cs.length - 1)).expanded = true →
      (cgetN cs (cs.length - 1)).size ≠ 0 := by
    rw [← getLast_eq_cgetN]; exact hlast
  cases n with
  | negInf =>
    simp only [incrementCore]
    rw [validPos_none_iff]
    omega
  | inf =>
    simp only [incrementCore, getLast_eq_cgetN]
    have hcg : cget cs ((cs.length : Int) - 1) = cgetN cs (cs.length - 1) := by
      unfold cget; congr 1; omega
    by_cases hexp : (cgetN cs (cs.length - 1)).expanded = true
    · rw [if_pos hexp, validPos_some_iff, hcg]
      have := hlast' hexp
      exact ⟨⟨by omega, by omega⟩, hexp, by omega, by omega⟩
    · rw [if_neg hexp, validPos_none_iff]
      omega
  | fin m =>
    simp only [incrementCore]
    by_cases hm : 0 < m
    · rw [if_pos hm]
      exact goDownAux_valid cs hlast' _ g _ (by omega) (by omega)
    · rw [if_neg hm]
      by_cases hm' : m < 0
      · rw [if_pos hm']
        cases pi with
        | none =>
          dsimp only
          set m0 := -m - 0 with hm0
          by_cases hr : (goUpAux cs g.toNat m0).2 < 0
          · rw [if_pos hr]
            obtain ⟨h1, h2, h3⟩ := goUpAux_neg cs g.toNat m0 (by omega) hr
            rw [validPos_some_iff]
            have hle := goUpAux_fst_le cs g.toNat m0
            rw [cget_ofNat]
            exact ⟨⟨by omega, by omega⟩, h1, h2, h3⟩
          · rw [if_neg hr, validPos_none_iff]
            have hle := goUpAux_fst_le cs g.toNat m0
            omega
        | some k =>
          dsimp only
          have hpk := ((validPos_some_iff cs g k).1 hp)
          set m0 := -m - (k + 1) with hm0
          by_cases h0 : 0 ≤ m0
          · by_cases hr : (goUpAux cs g.toNat m0).2 < 0
            · rw [if_pos hr]
              obtain ⟨h1, h2, h3⟩ := goUpAux_neg cs g.toNat m0 h0 hr
              rw [validPos_some_iff]
              have hle := goUpAux_fst_le cs g.toNat m0
              rw [cget_ofNat]
              exact ⟨⟨by omega, by omega⟩, h1, h2, h3⟩
            · rw [if_neg hr, validPos_none_iff]
              have hle := goUpAux_fst_le cs g.toNat m0
              omega
          · push_neg at h0
            rw [goUpAux_nonpos cs g.toNat (le_of_lt h0)]
            dsimp only
            rw [if_pos h0, validPos_some_iff]
            have hgt : ((g.toNat : Nat) : Int) = g := by omega
            rw [hgt]
            exact ⟨⟨by omega, by omega⟩, hpk.2.1, by omega, by omega⟩
      · rw [if_neg hm']
        exact hp

lemma validPos_ge_first {cs : Outline} {p : Pos} (hp : validPos cs p = true) :
    specLexLe ((0 : Int), none) p = true := by
  obtain ⟨g, pi⟩ := p
  have hg := validPos_bounds hp
  simp only [specLexLe, Bool.or_eq_true, Bool.and_eq_true, decide_eq_true_eq, and_true]
  dsimp only at hg
  omega

lemma validPos_le_last {cs : Outline} {p : Pos} (hp : validPos cs p = true) :
    specLexLe p (specLastPos cs) = true := by
  obtain ⟨g, pi⟩ := p
  have hg := validPos_bounds hp
  dsimp only at hg
  simp only [specLastPos, getLast_eq_cgetN]
  cases pi with
  | none =>
    split <;>
      simp only [specLexLe, Bool.or_eq_true, Bool.and_eq_true, decide_eq_true_eq,
        and_true] <;>
      omega
  | some k =>
    have hpk := (validPos_some_iff cs g k).1 hp
    by_cases hgl : g < (cs.length : Int) - 1
    · split <;>
        simp only [specLexLe, Bool.or_eq_true, Bool.and_eq_true, decide_eq_true_eq,
          and_true] <;>
        omega
    · have hge : g = (cs.length : Int) - 1 := by omega
      have hcg : cget cs g = cgetN cs (cs.length - 1) := by
        unfold cget; congr 1; omega
      rw [hcg] at hpk
      have hcond : (cgetN cs (cs.length - 1)).expanded = true ∧
          (cgetN cs (cs.length - 1)).size ≠ 0 := ⟨hpk.2.1, by omega⟩
      rw [if_pos (by simp [hcond.1, hcond.2])]
      simp only [specLexLe, Bool.or_eq_true, Bool.and_eq_true, decide_eq_true_eq]
      omega

lemma incrementIndex_ok {cs : Outline} {p : Pos} (n : Step)
    (hp : validPos cs p = true) :
    incrementIndex cs p n = .ok (incrementCore cs p n) := by
  rw [incrementIndex, if_pos (validPos_checkedPre hp)]

lemma incrementCore_up_to_header (cs : Outline) (g k : Int)
    (hg : 0 ≤ g) (hk : 0 ≤ k) :
    incrementCore cs (g, some k) (.fin (-k - 1)) = (g, none) := by
  simp only [incrementCore]
  rw [if_neg (by omega), if_pos (by omega)]
  rw [show -(-k - 1) - (k + 1) = 0 from by ring, goUpAux_nonpos cs g.toNat le_rfl]
  rw [if_neg (by omega)]
  rw [show ((g.toNat : Nat) : Int) = g from by omega]

/-- Claim C1 (corrected): on every non-empty outline whose last group is not
simultaneously expanded and empty, `_increment_index` applied to a valid
position and any step returns (without an assertion failure) a position that
is valid under the current expansion state and lies between `(0, None)` and
the last selectable position inclusive. -/
theorem advance_clamped_and_valid (cs : Outline) (p : Pos) (n : Step)
    (hlast : (cs.getLast?.getD ⟨false, 0⟩).expanded = true →
             (cs.getLast?.getD ⟨false, 0⟩).size ≠ 0)
    (hp : validPos cs p = true) :
    ∃ q, incrementIndex cs p n = .ok q ∧ validPos cs q = true ∧
      specLexLe ((0 : Int), none) q = true ∧
      specLexLe q (specLastPos cs) = true :=
  ⟨incrementCore cs p n, incrementIndex_ok n hp,
    incrementCore_valid cs p n hlast hp,
    validPos_ge_first (incrementCore_valid cs p n hlast hp),
    validPos_le_last (incrementCore_valid cs p n hlast hp)⟩

/-- Witness for C1: a two-group outline, starting at the first problem of the
first (expanded) group, stepping by 5. -/
theorem advance_clamped_and_valid_witness :
    ((([⟨true, 1⟩, ⟨false, 2⟩] : Outline).getLast?.getD ⟨false, 0⟩).expanded = true →
      (([⟨true, 1⟩, ⟨false, 2⟩] : Outline).getLast?.getD ⟨false, 0⟩).size ≠ 0) ∧
    validPos [⟨true, 1⟩, ⟨false, 2⟩] ((0 : Int), some 0) = true ∧
    ∃ q, incrementIndex [⟨true, 1⟩, ⟨false, 2⟩] ((0 : Int), some 0) (.fin 5) = .ok q ∧
      validPos [⟨true, 1⟩, ⟨false, 2⟩] q = true ∧
      specLexLe ((0 : Int), none) q = true ∧
      specLexLe q (specLastPos [⟨true, 1⟩, ⟨false, 2⟩]) = true :=
  ⟨by decide, by decide,
    advance_clamped_and_valid [⟨true, 1⟩, ⟨false, 2⟩] ((0 : Int), some 0) (.fin 5)
      (by decide) (by decide)⟩

/-- Claim C1 counterexample: on the outline made of one expanded group with
zero items, `_increment_index((0, None), 1)` returns `(0, -1)`, which is not
a valid position (its item index is negative). -/
theorem advance_clamped_and_valid_cex :
    incrementIndex [⟨true, 0⟩] ((0 : Int), none) (.fin 1)
        = .ok ((0 : Int), some (-1 : Int)) ∧
    validPos [⟨true, 0⟩] ((0 : Int), some (-1 : Int)) = false :=
  ⟨rfl, rfl⟩

/-- Claim C2 (code bug): `_compare_indices` is not the lexicographic order —
for two item positions of the same group it returns 1 ("greater") in both
directions, so for `a = (0, Some 0)` and `b = (0, Some 1)` (where `a`
precedes `b`) it answers "greater", and it is not even antisymmetric. -/
theorem compare_indices_incoherent :
    compareIndices ((0 : Int), some (0 : Int)) ((0 : Int), some (1 : Int)) = 1 ∧
    compareIndices ((0 : Int), some (1 : Int)) ((0 : Int), some (0 : Int)) = 1 :=
  ⟨by decide, by decide⟩

/-- Claim C3 (corrected): on every outline whose last group is not
simultaneously expanded and empty, `_increment_index` with the jump-to-end
sentinel (`math.inf`) returns, from every valid position, the last item of
the last group when that group is expanded and non-empty, and the last
group's header otherwise. -/
theorem advance_inf_last (cs : Outline) (p : Pos)
    (hlast : (cs.getLast?.getD ⟨false, 0⟩).expanded = true →
             (cs.getLast?.getD ⟨false, 0⟩).size ≠ 0)
    (hp : validPos cs p = true) :
    incrementIndex cs p .inf =
      .ok (if (cs.getLast?.getD ⟨false, 0⟩).expanded
              && decide ((cs.getLast?.getD ⟨false, 0⟩).size ≠ 0)
           then ((cs.length : Int) - 1,
                 some (((cs.getLast?.getD ⟨false, 0⟩).size : Int) - 1))
           else ((cs.length : Int) - 1, none)) := by
  rw [incrementIndex_ok .inf hp]
  simp only [incrementCore]
  by_cases hexp : (cs.getLast?.getD ⟨false, 0⟩).expanded = true
  · rw [if_pos hexp, if_pos (by simp [hexp, hlast hexp])]
  · rw [if_neg hexp, if_neg (by simp [hexp])]

/-- Witness for C3: a single collapsed group with three items. -/
theorem advance_inf_last_witness :
    ((([⟨false, 3⟩] : Outline).getLast?.getD ⟨false, 0⟩).expanded = true →
      (([⟨false, 3⟩] : Outline).getLast?.getD ⟨false, 0⟩).size ≠ 0) ∧
    validPos [⟨false, 3⟩] ((0 : Int), none) = true ∧
    incrementIndex [⟨false, 3⟩] ((0 : Int), none) .inf =
      .ok (if (([⟨false, 3⟩] : Outline).getLast?.getD ⟨false, 0⟩).expanded
              && decide ((([⟨false, 3⟩] : Outline).getLast?.getD ⟨false, 0⟩).size ≠ 0)
           then ((([⟨false, 3⟩] : Outline).length : Int) - 1,
                 some (((([⟨false, 3⟩] : Outline).getLast?.getD ⟨false, 0⟩).size : Int) - 1))
           else ((([⟨false, 3⟩] : Outline).length : Int) - 1, none)) :=
  ⟨by decide, by decide,
    advance_inf_last [⟨false, 3⟩] ((0 : Int), none) (by decide) (by decide)⟩

/-- Claim C3 counterexample: with the last group expanded and empty, the
jump-to-end sentinel returns `(0, Some (-1))`, not the `(0, None)` the claim
requires for that case. -/
theorem advance_inf_last_cex :
    incrementIndex [⟨true, 0⟩] ((0 : Int), none) .inf
        = .ok ((0 : Int), some (-1 : Int)) ∧
    (((0 : Int), some (-1 : Int)) : Pos) ≠ (((0 : Int), none) : Pos) :=
  ⟨rfl, by decide⟩

/-- Claim C4 (corrected): `_handle_move` reports a selection-swap (repaint of
the two selected rows only) and leaves `self._start` untouched whenever the
raw offset `self._relative + n` of a non-zero step lies inside `[0, max_y)`;
the decision is taken on that raw offset, not on the true slot distance of
the (possibly clamped) new selection. -/
theorem move_within_offset_swap (s : ToolState) (n : Int)
    (hval : validPos s.contests s.selected = true) (hn : n ≠ 0)
    (h0 : 0 ≤ s.relative + n) (h1 : s.relative + n < s.maxY) :
    handleMove s n =
      .ok ({ s with selected := incrementCore s.contests s.selected (.fin n),
                    relative := s.relative + n }, .swap) := by
  simp only [handleMove, incrementIndex_ok (.fin n) hval, bind, Except.bind]
  by_cases hpos : 0 < n
  · rw [if_pos hpos, if_neg (by omega)]; rfl
  · rw [if_neg hpos, if_pos (by omega), if_neg (by omega)]; rfl

/-- Witness for C4: one step down inside a five-row window. -/
theorem move_within_offset_swap_witness :
    validPos [⟨false, 1⟩, ⟨false, 1⟩]
        (initState [⟨false, 1⟩, ⟨false, 1⟩] 5).selected = true ∧
    (1 : Int) ≠ 0 ∧ (0 : Int) ≤ (initState [⟨false, 1⟩, ⟨false, 1⟩] 5).relative + 1 ∧
    (initState [⟨false, 1⟩, ⟨false, 1⟩] 5).relative + 1 <
      (initState [⟨false, 1⟩, ⟨false, 1⟩] 5).maxY ∧
    handleMove (initState [⟨false, 1⟩, ⟨false, 1⟩] 5) 1 =
      .ok ({ initState [⟨false, 1⟩, ⟨false, 1⟩] 5 with
               selected := incrementCore [⟨false, 1⟩, ⟨false, 1⟩]
                 (initState [⟨false, 1⟩, ⟨false, 1⟩] 5).selected (.fin 1),
               relative := (initState [⟨false, 1⟩, ⟨false, 1⟩] 5).relative + 1 },
            .swap) :=
  ⟨by decide, by decide, by decide, by decide,
    move_within_offset_swap (initState [⟨false, 1⟩, ⟨false, 1⟩] 5) 1
      (by decide) (by decide) (by decide) (by decide)⟩

/-- Claim C4 counterexample: on a one-slot outline with a five-row window, a
clamped overshooting `_handle_move(10)` leaves the selection at slot 0 — the
true slot distance from the window start to the new selection is 0, inside
`[0, 5)` — yet the handler performs a full redraw (and corrupts
`self._relative` to 4), not a selection-swap. -/
theorem move_within_window_full_repaint_cex :
    handleMove ⟨[⟨false, 1⟩], ((0 : Int), none), ((0 : Int), none), 0, 5⟩ 10
      = .ok (⟨[⟨false, 1⟩], ((0 : Int), none), ((0 : Int), none), 4, 5⟩, .full) ∧
    specSlotOf [⟨false, 1⟩] ((0 : Int), none)
        - specSlotOf [⟨false, 1⟩] ((0 : Int), none) = 0 ∧
    (0 : Int) ≤ 0 ∧ (0 : Int) < 5 ∧ Redraw.full ≠ Redraw.swap :=
  ⟨rfl, by decide, by decide, by decide, by decide⟩

/-- Claim C5 (code bug): from a freshly constructed navigator over two
collapsed groups with a five-row window, the sequence `move_by(1)`,
`resize`, `move_by(2)`, `move_by(-1)` drives the state to
`viewport_start = (1, None)` and `selected = (0, None)`: the window start is
strictly after the selection in slot order, violating the window
invariant. -/
theorem window_invariant_violated :
    (do
      let (s1, _) ← handleMove (initState [⟨false, 1⟩, ⟨false, 1⟩] 5) 1
      let s2 := handleResize s1 5
      let (s3, _) ← handleMove s2 2
      let (s4, _) ← handleMove s3 (-1)
      Except.ok (s4.start, s4.selected) : Except Unit (Pos × Pos))
      = .ok (((1 : Int), none), ((0 : Int), none)) ∧
    specLexLe ((1 : Int), (none : Option Int)) ((0 : Int), none) = false :=
  ⟨rfl, rfl⟩

/-- Claim C7 (confirmed): collapsing while the selection is an item of a
group first moves the selection to that group's header, then clears the
`expanded` flag, leaving the selection at the header of the collapsed group
— a valid position under the new expansion state. -/
theorem collapse_reclamps_to_header (s : ToolState) (g k : Int)
    (hsel : s.selected = (g, some k))
    (hval : validPos s.contests s.selected = true) :
    ∃ s', handleCollapse s = .ok s' ∧ s'.selected = (g, none) ∧
      s'.contests = setExpanded s.contests g false ∧
      validPos s'.contests s'.selected = true := by
  have hval' : validPos s.contests (g, some k) = true := hsel ▸ hval
  have hpk := (validPos_some_iff s.contests g k).1 hval'
  have hmove : handleMove s (-k - 1) =
      if s.relative + (-k - 1) < 0 then
        .ok ({ s with start := (g, none), selected := (g, none),
                      relative := 0 }, .full)
      else
        .ok ({ s with selected := (g, none),
                      relative := s.relative + (-k - 1) }, .swap) := by
    simp only [handleMove, hsel, incrementIndex_ok (.fin (-k - 1)) hval',
      incrementCore_up_to_header s.contests g k hpk.1.1 hpk.2.2.1, bind,
      Except.bind]
    rw [if_neg (show ¬(0 : Int) < -k - 1 from by omega),
      if_pos (show -k - 1 < (0 : Int) from by omega)]
    rfl
  simp only [handleCollapse, hsel]
  rw [hmove]
  by_cases hrel : s.relative + (-k - 1) < 0
  · rw [if_pos hrel]
    refine ⟨_, rfl, rfl, rfl, ?_⟩
    rw [validPos_none_iff]
    simp only [setExpanded, List.length_set]
    exact hpk.1
  · rw [if_neg hrel]
    refine ⟨_, rfl, rfl, rfl, ?_⟩
    rw [validPos_none_iff]
    simp only [setExpanded, List.length_set]
    exact hpk.1

/-- Witness for C7: collapsing with the selection on item 1 of a single
expanded two-item group. -/
theorem collapse_reclamps_to_header_witness :
    (⟨[⟨true, 2⟩], ((0 : Int), none), ((0 : Int), some 1), 1, 5⟩ :
        ToolState).selected = ((0 : Int), some 1) ∧
    validPos [⟨true, 2⟩]
      (⟨[⟨true, 2⟩], ((0 : Int), none), ((0 : Int), some 1), 1, 5⟩ :
        ToolState).selected = true ∧
    ∃ s', handleCollapse
        (⟨[⟨true, 2⟩], ((0 : Int), none), ((0 : Int), some 1), 1, 5⟩ :
          ToolState) = .ok s' ∧
      s'.selected = ((0 : Int), none) ∧
      s'.contests = setExpanded [⟨true, 2⟩] 0 false ∧
      validPos s'.contests s'.selected = true :=
  ⟨rfl, by decide,
    collapse_reclamps_to_header
      (⟨[⟨true, 2⟩], ((0 : Int), none), ((0 : Int), some 1), 1, 5⟩ : ToolState)
      0 1 rfl (by decide)⟩

/-- Claim C8 (corrected): `_increment_index` raises (an assertion failure)
exactly when its checked precondition fails — a group index out of range, or
an item index supplied while the group is collapsed; an out-of-range item
index on an expanded group is not checked, and the function never raises on
any position passing the check, in particular on any valid position,
whatever the step. -/
theorem increment_index_fail_fast (cs : Outline) (p : Pos) (n : Step) :
    (incrementIndex cs p n = .error () ↔ checkedPre cs p = false) ∧
    (validPos cs p = true → incrementIndex cs p n = .ok (incrementCore cs p n)) := by
  constructor
  · by_cases h : checkedPre cs p = true
    · rw [incrementIndex, if_pos h]
      simp [h]
    · rw [incrementIndex, if_neg h]
      simp [Bool.not_eq_true] at h
      simp [h]
  · intro hv
    exact incrementIndex_ok n hv

/-- Witness for C8: a valid item position does not trip the assertions. -/
theorem increment_index_fail_fast_witness :
    validPos [⟨true, 3⟩] ((0 : Int), some 2) = true ∧
    incrementIndex [⟨true, 3⟩] ((0 : Int), some 2) (.fin 2) =
      .ok (incrementCore [⟨true, 3⟩] ((0 : Int), some 2) (.fin 2)) :=
  ⟨by decide,
    (increment_index_fail_fast [⟨true, 3⟩] ((0 : Int), some 2) (.fin 2)).2 (by decide)⟩

/-- Claim C8 counterexample: the position `(0, Some 5)` on a one-group
expanded outline with a single item has its item index far out of range,
yet `_increment_index` does not fail fast — it passes the assertions and
returns a result. -/
theorem increment_index_no_oob_check_cex :
    incrementIndex [⟨true, 1⟩] ((0 : Int), some 5) (.fin 1) = .ok ((0 : Int), some 0) ∧
    validPos [⟨true, 1⟩] ((0 : Int), some 5) = false :=
  ⟨rfl, rfl⟩

/-- Claim C9 (confirmed): `_increment_index(pos, 0)` returns `pos` unchanged
and never raises, for every valid `pos`. -/
theorem advance_zero_identity (cs : Outline) (p : Pos)
    (hp : validPos cs p = true) :
    incrementIndex cs p (.fin 0) = .ok p := by
  rw [incrementIndex_ok (.fin 0) hp]
  simp [incrementCore]

/-- Witness for C9: the zero step on a header position. -/
theorem advance_zero_identity_witness :
    validPos [⟨false, 3⟩, ⟨true, 2⟩] ((1 : Int), some 0) = true ∧
    incrementIndex [⟨false, 3⟩, ⟨true, 2⟩] ((1 : Int), some 0) (.fin 0) =
      .ok ((1 : Int), some 0) :=
  ⟨by decide,
    advance_zero_identity [⟨false, 3⟩, ⟨true, 2⟩] ((1 : Int), some 0) (by decide)⟩

/-- Claim C10 (confirmed): `_handle_move(0)` returns early — the whole state
(`self._start`, `self._selected`, `self._relative`, `self._max_y`, the
contest list) is unchanged and nothing is repainted. -/
theorem handle_move_zero_noop (s : ToolState)
    (hp : validPos s.contests s.selected = true) :
    handleMove s 0 = .ok (s, .noop) := by
  simp only [handleMove, incrementIndex_ok (.fin 0) hp, bind, Except.bind]
  rw [if_neg (by omega), if_neg (by omega)]
  rfl

/-- Witness for C10: the zero move on a concrete state. -/
theorem handle_move_zero_noop_witness :
    validPos [⟨true, 2⟩]
      (⟨[⟨true, 2⟩], ((0 : Int), none), ((0 : Int), some 1), 1, 5⟩ :
        ToolState).selected = true ∧
    handleMove
        (⟨[⟨true, 2⟩], ((0 : Int), none), ((0 : Int), some 1), 1, 5⟩ : ToolState) 0 =
      .ok ((⟨[⟨true, 2⟩], ((0 : Int), none), ((0 : Int), some 1), 1, 5⟩ :
        ToolState), .noop) :=
  ⟨by decide,
    handle_move_zero_noop
      (⟨[⟨true, 2⟩], ((0 : Int), none), ((0 : Int), some 1), 1, 5⟩ : ToolState)
      (by decide)⟩

end CF

namespace CPC

/-- Claim C6 (corrected): `move_viewport` adds `n` to `viewport_start`
without any clamping and never touches the selected index or the selection
— the selection is not re-clamped into the window. -/
theorem move_viewport_shifts_only (s : UIState) (n : Int) :
    (moveViewport s n).viewportStart = s.viewportStart + n ∧
    (moveViewport s n).index = s.index ∧
    (moveViewport s n).selectionLen = s.selectionLen :=
  ⟨rfl, rfl, rfl⟩

/-- Claim C6 counterexample: scrolling a three-entry selection down by 7 rows
puts `viewport_start` at 7 — past every valid slot, unclamped — while the
selected index stays at 0, strictly above the window start, so the selection
is left outside the window rather than clamped to its nearest row. -/
theorem move_viewport_unclamped_cex :
    moveViewport ⟨0, 0, 3⟩ 7 = ⟨0, 7, 3⟩ ∧
    (3 : Int) ≤ (moveViewport ⟨0, 0, 3⟩ 7).viewportStart ∧
    (moveViewport ⟨0, 0, 3⟩ 7).index < (moveViewport ⟨0, 0, 3⟩ 7).viewportStart :=
  ⟨rfl, by decide, by decide⟩

end CPC
